import Mathlib

/-!
Shallow embedding of the mega-sena pool backend (scoring, bet-level
resolution, weighted random selection, vote consolidation, closure
orchestration, closure hashing and input validation), together with
theorems settling the specification claims about it.

JavaScript numbers are modelled as exact rationals (ℚ); `Math.round`,
`Math.floor` and the `%` remainder are modelled explicitly.  All the
inputs appearing in the development are far below 2^53, where JS float
arithmetic on integers and small decimals is exact.
-/

namespace MegaSena

/-- JS Math.round: round half toward positive infinity. -/
def jsRound (q : ℚ) : ℚ := ((⌊q + 1 / 2⌋ : ℤ) : ℚ)

/-- JS Math.floor. -/
def jsFloor (q : ℚ) : ℚ := ((⌊q⌋ : ℤ) : ℚ)

/-- JS remainder a % b.  JS truncates the quotient; for the nonnegative
dividends and positive divisors used in this code base truncation and
floor agree. -/
def jsMod (a b : ℚ) : ℚ := a - b * jsFloor (a / b)

/-- JS Math.min over a spread list.  The source never applies it to an
empty list (JS would give +Infinity there); we return 0 in that case. -/
def listMinQ : List ℚ → ℚ
  | [] => 0
  | x :: xs => xs.foldl min x

/-- JS Math.max over a spread list.  The source never applies it to an
empty list (JS would give -Infinity there); we return 0 in that case. -/
def listMaxQ : List ℚ → ℚ
  | [] => 0
  | x :: xs => xs.foldl max x

/-- The numbers 1..60 in ascending order, the universe of Mega-Sena
numbers (the loops `for (let num = 1; num <= 60; num++)` of the source). -/
def range60 : List Nat := (List.range 60).map (fun i => i + 1)

namespace CONFIG

/-- One entry of `CONFIG.BET_LEVELS` in `backend/src/config/constants.js`. -/
structure BetLevel where
  numbers : Nat
  cost : ℚ
deriving DecidableEq

/-- Bet levels ordered by descending cost (`constants.js`, lines 12-17). -/
def BET_LEVELS : List BetLevel := [⟨9, 504⟩, ⟨8, 168⟩, ⟨7, 42⟩, ⟨6, 6⟩]

/-- Valid Mega-Sena range (`constants.js`, lines 20-23). -/
structure NumRange where
  min : ℚ
  max : ℚ

/-- The `CONFIG.MEGA_SENA_RANGE` constant. -/
def MEGA_SENA_RANGE : NumRange := ⟨1, 60⟩

/-- Scoring weights (`constants.js`, lines 26-30). -/
structure ScoreWeights where
  historical : ℚ
  popularity : ℚ
  antiPattern : ℚ

/-- The `CONFIG.SCORE_WEIGHTS` constant. -/
def SCORE_WEIGHTS : ScoreWeights := ⟨40, 40, 20⟩

/-- Anti-pattern penalties (`constants.js`, lines 33-37). -/
structure Penalties where
  birthday : ℚ
  multipleOf5 : ℚ
  multipleOf10 : ℚ

/-- The `CONFIG.PENALTIES` constant. -/
def PENALTIES : Penalties := ⟨10, 5, 5⟩

end CONFIG

/-- `calculateAntiPatternPenalty` from `backend/src/services/antiPattern.js`
(lines 245-265 of the concatenated scoring source): start at 0, add the
birthday penalty for 1..31, the multiple-of-5 penalty, the additional
multiple-of-10 penalty, and cap at `CONFIG.SCORE_WEIGHTS.antiPattern`. -/
def calculateAntiPatternPenalty (number : Nat) : ℚ :=
  let penalty : ℚ := 0
  let penalty := if 1 ≤ number ∧ number ≤ 31 then penalty + CONFIG.PENALTIES.birthday else penalty
  let penalty := if number % 5 = 0 then penalty + CONFIG.PENALTIES.multipleOf5 else penalty
  let penalty := if number % 10 = 0 then penalty + CONFIG.PENALTIES.multipleOf10 else penalty
  min penalty CONFIG.SCORE_WEIGHTS.antiPattern

/-- Result record of `calculateBetLevel` (`betLevel.js`).  The display-only
`breakdown` strings of the source are omitted.  In the insufficient-funds
branch the source returns an object carrying only `betLevel: 0`, `error`
and `totalFunds`; the fields absent there are set to 0 here, and that
branch is identified by `betLevel = 0` and `error ≠ none`, exactly as the
source's callers do. -/
structure BetLevelInfo where
  betLevel : Nat
  betCost : ℚ
  surplusFunds : ℚ
  surplusBets : ℚ
  remainingFunds : ℚ
  totalFunds : ℚ
  error : Option String
deriving DecidableEq

/-- `calculateBetLevel` from `betLevel.js` (the unnamed source part):
scan `CONFIG.BET_LEVELS` in order and return at the first tier whose cost
is at most `totalFunds`; otherwise return the insufficient-funds record.
The `for ... return` loop of the source is the first match of `find?`. -/
def calculateBetLevel (totalFunds : ℚ) : BetLevelInfo :=
  match CONFIG.BET_LEVELS.find? (fun level => decide (level.cost ≤ totalFunds)) with
  | some level =>
    ⟨level.numbers, level.cost, totalFunds - level.cost,
      jsFloor ((totalFunds - level.cost) / 6), jsMod (totalFunds - level.cost) 6,
      totalFunds, none⟩
  | none =>
    ⟨0, 0, 0, 0, 0, totalFunds, some "Fundos insuficientes para aposta mínima (R$ 6,00)"⟩

/-- `isValidNumber` from `backend/src/utils/validation.js` (lines 8-12):
`Number.isInteger(number) && number >= min && number <= max`.  A JS value
that is an integer is a rational with denominator 1. -/
def isValidNumber (number : ℚ) : Bool :=
  number.den == 1
    && decide (CONFIG.MEGA_SENA_RANGE.min ≤ number)
    && decide (number ≤ CONFIG.MEGA_SENA_RANGE.max)

/-- Result of `validateNumbers`. -/
structure ValidationResult where
  valid : Bool
  errors : List String
deriving DecidableEq

/-- `validateNumbers` from `backend/src/utils/validation.js` (lines 19-49).
The argument is `none` when the JS value is not an array.  The JS
`new Set(numbers).size` is the number of distinct elements, i.e. the
length of `dedup`.  There is no check on the length of the array beyond
non-emptiness. -/
def validateNumbers : Option (List ℚ) → ValidationResult
  | none => ⟨false, ["Numbers must be an array"]⟩
  | some numbers =>
    if numbers.length = 0 then
      ⟨false, ["At least one number is required"]⟩
    else
      let dupErrors :=
        if numbers.dedup.length ≠ numbers.length then ["Duplicate numbers are not allowed"] else []
      let numErrors := numbers.filterMap fun num =>
        if isValidNumber num then none
        else some ("Invalid number: " ++ toString num ++ " (must be between 1 and 60)")
      let errors := dupErrors ++ numErrors
      ⟨errors.length == 0, errors⟩

/-! ### Score engine (`backend/src/services/scoring.js`) -/

/-- One row of `historical_draws`: the six numbers of one draw
(`number_1` .. `number_6`). -/
structure Draw where
  number_1 : ℤ
  number_2 : ℤ
  number_3 : ℤ
  number_4 : ℤ
  number_5 : ℤ
  number_6 : ℤ
deriving DecidableEq

/-- The six position values of a draw, in position order. -/
def Draw.nums (d : Draw) : List ℤ :=
  [d.number_1, d.number_2, d.number_3, d.number_4, d.number_5, d.number_6]

/-- The frequency counter of `calculateHistoricalFrequency` (scoring.js,
lines 20-29): occurrences of `n` over all draw positions, counting only
position values within 1..60 as the source's guard does. -/
def histCount (draws : List Draw) (n : Nat) : Nat :=
  (((draws.map Draw.nums).flatten).filter
    (fun v => decide (1 ≤ v) && decide (v ≤ 60))).count (n : ℤ)

/-- `calculateHistoricalFrequency` (scoring.js, lines 10-55), as the score
assigned to one number: linear normalization of the count to
0..`SCORE_WEIGHTS.historical`, with the degenerate all-equal case mapped
to `historical / 2`. -/
def calculateHistoricalFrequency (draws : List Draw) (num : Nat) : ℚ :=
  let freqs : List ℚ := range60.map fun n => (histCount draws n : ℚ)
  let maxFreq := listMaxQ freqs
  let minFreq := listMinQ freqs
  let range := maxFreq - minFreq
  if range = 0 then CONFIG.SCORE_WEIGHTS.historical / 2
  else jsRound (((histCount draws num : ℚ) - minFreq) / range * CONFIG.SCORE_WEIGHTS.historical)

/-- The popularity counter of `calculatePopularity` (scoring.js, lines
79-87): how many confirmed selection rows picked `n`, counting only
selection values within 1..60 as the source's guard does.  `selections`
lists the picked number of every confirmed selection row of the pool. -/
def popCount (selections : List Nat) (n : Nat) : Nat :=
  (selections.filter (fun s => decide (1 ≤ s) && decide (s ≤ 60))).count n

/-- `calculatePopularity` (scoring.js, lines 64-105), as the score for one
number: inverted normalization, with the per-number maximum count floored
at 1 by `Math.max(...popularity.slice(1), 1)`. -/
def calculatePopularity (selections : List Nat) (num : Nat) : ℚ :=
  let maxPop := listMaxQ ((range60.map fun n => (popCount selections n : ℚ)) ++ [1])
  jsRound ((1 - (popCount selections num : ℚ) / maxPop) * CONFIG.SCORE_WEIGHTS.popularity)

/-- One `number_scores` row as built by `calculateAllScores` (scoring.js,
lines 132-140).  The `bolao_id` and `last_updated` bookkeeping fields are
omitted: neither takes part in any computation. -/
structure ScoreRow where
  number : Nat
  historical_frequency : ℚ
  current_popularity : ℚ
  anti_pattern_penalty : ℚ
  final_score : ℚ
deriving DecidableEq

/-- `calculateAllScores` (scoring.js, lines 113-157): one row for every
number 1..60, in loop order, with
`final_score = historical + popularity - penalty`. -/
def calculateAllScores (draws : List Draw) (selections : List Nat) : List ScoreRow :=
  range60.map fun num =>
    let historical := calculateHistoricalFrequency draws num
    let popularity := calculatePopularity selections num
    let penalty := calculateAntiPatternPenalty num
    ⟨num, historical, popularity, penalty, historical + popularity - penalty⟩

/-- The stored-score query of `getScores` orders rows by number ascending
(`.order('number', { ascending: true })`).  JS/Postgres sorting is stable;
insertion sort with a non-strict total preorder is the stable sort. -/
def sortByNumber (rows : List ScoreRow) : List ScoreRow :=
  rows.insertionSort (fun a b => a.number ≤ b.number)

/-- `getScores` (scoring.js, lines 165-191).  `stored` is the content of
the `number_scores` table for the pool; the recompute path is taken only
when `recalculate` is set or the stored rows are empty. -/
def getScores (draws : List Draw) (selections : List Nat) (stored : List ScoreRow)
    (recalculate : Bool) : List ScoreRow :=
  if recalculate then calculateAllScores draws selections
  else
    let scores := sortByNumber stored
    if scores.length = 0 then calculateAllScores draws selections
    else scores

/-! ### Weighted random generator (`backend/src/utils/weightedRandom.js`) -/

/-- An item/weight pair, the element type of `weightedRandomSelection`'s
input. -/
structure WItem (α : Type) where
  item : α
  weight : ℚ
deriving DecidableEq

/-- The per-draw offset of `weightedRandomSelection` (weightedRandom.js,
lines 22-23): `minWeight < 0 ? Math.abs(minWeight) + 1 : 0`. -/
def offsetFor {α : Type} (remaining : List (WItem α)) : ℚ :=
  let minWeight := listMinQ (remaining.map WItem.weight)
  if minWeight < 0 then abs minWeight + 1 else 0

/-- The cumulative-weight walk of `weightedRandomSelection` (lines 32-39):
subtract each adjusted weight from `random` and return the first index at
which the remainder is ≤ 0, if any. -/
def scanPick {α : Type} (offset : ℚ) : ℚ → List (WItem α) → Option Nat
  | _, [] => none
  | random, r :: rs =>
    if random - (r.weight + offset) ≤ 0 then some 0
    else (scanPick offset (random - (r.weight + offset)) rs).map (fun j => j + 1)

/-- The selected index of one draw, with the fallback to the last
remaining item (lines 42-44). -/
def pickIndex {α : Type} (random offset : ℚ) (remaining : List (WItem α)) : Nat :=
  (scanPick offset random remaining).getD (remaining.length - 1)

/-- The draw loop of `weightedRandomSelection` (lines 20-49).  `rand i` is
the value of the `Math.random()` call of iteration `i`; `fuel` is the
number of iterations left.  The empty-remaining case is unreachable from
`weightedRandomSelection` (the loop runs `count < items.length` times). -/
def selectLoop {α : Type} (rand : Nat → ℚ) : Nat → Nat → List (WItem α) → List α
  | 0, _, _ => []
  | _ + 1, _, [] => []
  | fuel + 1, i, x :: xs =>
    let remaining := x :: xs
    let offset := offsetFor remaining
    let totalWeight := remaining.foldl (fun s r => s + (r.weight + offset)) 0
    let random := rand i * totalWeight
    let idx := pickIndex random offset remaining
    match remaining[idx]? with
    | none => []
    | some sel => sel.item :: selectLoop rand fuel (i + 1) (remaining.eraseIdx idx)

/-- `weightedRandomSelection` (weightedRandom.js, lines 12-52). -/
def weightedRandomSelection {α : Type} (rand : Nat → ℚ) (items : List (WItem α))
    (count : Nat) : List α :=
  if items.length ≤ count then items.map WItem.item
  else selectLoop rand count 0 items

/-- `generateWeightedRandomNumbers` (weightedRandom.js, lines 60-68):
weights are the final scores, the result is sorted ascending.  JS
`.sort((a, b) => a - b)` on numbers is modelled by insertion sort with ≤. -/
def generateWeightedRandomNumbers (rand : Nat → ℚ) (scores : List ScoreRow)
    (count : Nat) : List Nat :=
  let items := scores.map fun s => (⟨s.number, s.final_score⟩ : WItem Nat)
  let selected := weightedRandomSelection rand items count
  selected.insertionSort (fun a b => a ≤ b)

/-! ### Vote consolidation (`backend/src/services/closure.js`, lines 14-75) -/

/-- One entry of the `ranked` array of `consolidateFinalNumbers` (lines
50-57). -/
structure RankedEntry where
  number : Nat
  votes : Nat
  score : ℚ
deriving DecidableEq

/-- The sort comparator of `consolidateFinalNumbers` (lines 60-65):
votes descending, then score descending. -/
def cmpRanked (a b : RankedEntry) : ℚ :=
  if b.votes ≠ a.votes then (b.votes : ℚ) - (a.votes : ℚ) else b.score - a.score

/-- The `scoreMap[num] || 0` access (lines 44-47, 55): the score map is
built by forward iteration over the fetched rows, so the last row for a
number wins; a missing number gives 0 (and `|| 0` also sends a stored 0
to 0). -/
def lookupScore (scoreRows : List (Nat × ℚ)) (n : Nat) : ℚ :=
  match scoreRows.reverse.find? (fun s => s.1 == n) with
  | some s => s.2
  | none => 0

/-- The `ranked` array (lines 49-57): one entry per number 1..60 in
ascending order, with the vote count of the confirmed selections and the
mapped score. -/
def rankedList (selections : List Nat) (scoreRows : List (Nat × ℚ)) : List RankedEntry :=
  range60.map fun num => ⟨num, selections.count num, lookupScore scoreRows num⟩

/-- A JS stable sort with comparator `cmpRanked` keeps `a` no later than
`b` exactly when `cmpRanked a b ≤ 0`. -/
def rankLE (a b : RankedEntry) : Prop := cmpRanked a b ≤ 0

instance : DecidableRel rankLE := fun a b =>
  decidable_of_iff (b.votes < a.votes ∨ (a.votes = b.votes ∧ b.score ≤ a.score)) (by
    unfold rankLE cmpRanked
    constructor
    · rintro (hlt | ⟨heq, hle⟩)
      · rw [if_pos (by omega : b.votes ≠ a.votes)]
        have hc : (b.votes : ℚ) < (a.votes : ℚ) := by exact_mod_cast hlt
        linarith
      · rw [if_neg (by omega)]
        linarith
    · intro h
      by_cases hv : b.votes ≠ a.votes
      · rw [if_pos hv] at h
        have hc : (b.votes : ℚ) ≤ (a.votes : ℚ) := by linarith
        exact Or.inl (lt_of_le_of_ne (Nat.cast_le.mp hc) hv)
      · rw [if_neg hv] at h
        exact Or.inr ⟨by omega, by linarith⟩)

instance : IsTotal RankedEntry rankLE := ⟨by
  intro a b
  unfold rankLE cmpRanked
  by_cases hv : b.votes = a.votes
  · rw [if_neg (by omega), if_neg (by omega)]
    rcases le_total b.score a.score with h | h
    · exact Or.inl (by linarith)
    · exact Or.inr (by linarith)
  · rw [if_pos (by omega), if_pos (by omega)]
    rcases le_total (b.votes : ℚ) (a.votes : ℚ) with h | h
    · exact Or.inl (by linarith)
    · exact Or.inr (by linarith)⟩

instance : IsTrans RankedEntry rankLE := ⟨by
  intro a b c hab hbc
  unfold rankLE cmpRanked at hab hbc ⊢
  by_cases h1 : b.votes = a.votes <;> by_cases h2 : c.votes = b.votes
  · rw [if_neg (by omega)] at hab
    rw [if_neg (by omega)] at hbc
    rw [if_neg (by omega)]
    linarith
  · rw [if_neg (by omega)] at hab
    rw [if_pos (by omega)] at hbc
    rw [if_pos (by omega)]
    have h1q : (b.votes : ℚ) = (a.votes : ℚ) := by exact_mod_cast h1
    linarith
  · rw [if_pos (by omega)] at hab
    rw [if_neg (by omega)] at hbc
    rw [if_pos (by omega)]
    have h2q : (c.votes : ℚ) = (b.votes : ℚ) := by exact_mod_cast h2
    linarith
  · rw [if_pos (by omega)] at hab
    rw [if_pos (by omega)] at hbc
    have hba : (b.votes : ℚ) ≤ (a.votes : ℚ) := by linarith
    have hcb : (c.votes : ℚ) ≤ (b.votes : ℚ) := by linarith
    by_cases h3 : c.votes = a.votes
    · rw [if_neg (by omega)]
      have : b.votes = a.votes := by
        have := Nat.cast_le.mp hba
        have := Nat.cast_le.mp hcb
        omega
      exact absurd this h1
    · rw [if_pos (by omega)]
      linarith⟩

/-- `consolidateFinalNumbers` (closure.js, lines 14-75): rank all 60
numbers with the stable comparator sort (JS `Array.prototype.sort` is
stable; insertion sort with the non-strict preorder `rankLE` is the
stable sort), take the top `targetCount`, and sort those ascending.
`selections` lists the picked number of every confirmed selection row. -/
def consolidateFinalNumbers (selections : List Nat) (scoreRows : List (Nat × ℚ))
    (targetCount : Nat) : List Nat :=
  let ranked := rankedList selections scoreRows
  let sorted := ranked.insertionSort rankLE
  let selected := (sorted.take targetCount).map RankedEntry.number
  selected.insertionSort (fun a b => a ≤ b)

/-! ### Closure orchestration (`backend/src/services/closure.js`, lines
83-333)

`closeBolao` interleaves storage reads/writes with the computations
modelled above.  For the persistence-ordering claim only the sequence of
fallible steps and the writes to the `bolao` row and the `final_bets`
table matter, so the step chain is modelled with a failure oracle saying
which storage operation fails, while the computed data (hash, bets) is
threaded as parameters.  The step order and the error behaviour of every
branch follow the source; the auto-generation insert errors of step 3 are
logged and swallowed there (lines 148-153), so they abort nothing and do
not appear as an abort point. -/

/-- The persisted state `closeBolao` can write: the pool row's status and
closure hash, and whether the `final_bets` rows were inserted. -/
structure ClosureDb where
  poolStatus : String
  poolClosureHash : Option String
  finalBetsInserted : Bool
deriving DecidableEq

/-- Which fallible storage step of `closeBolao` fails, in source order:
the financial summary (step 2), the insufficient-funds abort (step 2),
the participant load (step 3), the `getScores` call before
auto-generation (step 3), the consolidation queries (step 4), the
`getScores` fallback inside the surplus loop (step 5), the pool-row
update (step 8) and the `final_bets` insert (step 9). -/
structure CloseFailures where
  atFinancials : Bool
  insufficientFunds : Bool
  atLoadParticipants : Bool
  atGetScores : Bool
  atConsolidate : Bool
  atSurplusFallbackScores : Bool
  atUpdateStatus : Bool
  atInsertFinalBets : Bool
deriving DecidableEq

/-- `closeBolao` (closure.js, lines 83-333) as its chain of fallible
steps: the result is the propagated error or success, paired with the
persisted state after the run.  The status write of step 8 (lines
294-305) precedes the `final_bets` insert of step 9 (lines 307-318). -/
def closeBolao (f : CloseFailures) (closureHash : String) (db : ClosureDb) :
    Except String Unit × ClosureDb :=
  if db.poolStatus ≠ "open" then
    (Except.error "Bolão not found or already closed", db)
  else if f.atFinancials then (Except.error "financials query failed", db)
  else if f.insufficientFunds then
    (Except.error "Fundos insuficientes para aposta mínima (R$ 6,00)", db)
  else if f.atLoadParticipants then (Except.error "participations query failed", db)
  else if f.atGetScores then (Except.error "number_scores query failed", db)
  else if f.atConsolidate then (Except.error "consolidation query failed", db)
  else if f.atSurplusFallbackScores then (Except.error "surplus fallback getScores failed", db)
  else if f.atUpdateStatus then (Except.error "bolao update failed", db)
  else
    let db1 : ClosureDb := ⟨"closed", some closureHash, db.finalBetsInserted⟩
    if f.atInsertFinalBets then (Except.error "final_bets insert failed", db1)
    else (Except.ok (), ⟨db1.poolStatus, db1.poolClosureHash, true⟩)

/-! ### Closure hash (`backend/src/utils/hash.js`)

`generateClosureHash` computes
`sha256(JSON.stringify(closureData, Object.keys(closureData).sort()))`.
JSON values are embedded below; `JSON.stringify` with an array replacer
is modelled per the ECMAScript SerializeJSONObject algorithm: for every
object at every depth, exactly the keys of the replacer list, in replacer
order, that are present on the object are serialized; array elements are
always serialized.  The SHA-256 digest is modelled as the identity on the
serialized string: only equality of digests is ever observed, and equal
strings have equal digests, so every theorem below asserting equal or
verifying hashes is sound without any injectivity assumption. -/

mutual
/-- A JSON value (the closure record is built from these shapes). -/
inductive Json where
  | null : Json
  | jbool (b : Bool) : Json
  | num (n : ℤ) : Json
  | str (s : String) : Json
  | arr (elems : JsonArr) : Json
  | obj (fields : JsonObj) : Json
/-- A JSON array: a sequence of values. -/
inductive JsonArr where
  | nil : JsonArr
  | cons (hd : Json) (tl : JsonArr) : JsonArr
/-- A JSON object: key/value fields in insertion order, keys unique. -/
inductive JsonObj where
  | nil : JsonObj
  | cons (k : String) (v : Json) (tl : JsonObj) : JsonObj
end

/-- Build a JSON array from a list. -/
def Json.ofArr : List Json → JsonArr
  | [] => .nil
  | x :: xs => .cons x (Json.ofArr xs)

/-- Build a JSON object from an insertion-ordered field list. -/
def Json.ofObj : List (String × Json) → JsonObj
  | [] => .nil
  | kv :: kvs => .cons kv.1 kv.2 (Json.ofObj kvs)

mutual
/-- Total size of a JSON value; bounds its nesting depth, so it serves as
recursion fuel for serialization. -/
def jsize : Json → Nat
  | .null => 1
  | .jbool _ => 1
  | .num _ => 1
  | .str _ => 1
  | .arr elems => 1 + asize elems
  | .obj fields => 1 + osize fields
/-- Total size of a JSON array. -/
def asize : JsonArr → Nat
  | .nil => 0
  | .cons hd tl => jsize hd + asize tl
/-- Total size of a JSON object. -/
def osize : JsonObj → Nat
  | .nil => 0
  | .cons _ v tl => jsize v + osize tl
end

/-- The elements of a JSON array as a list. -/
def arrToList : JsonArr → List Json
  | .nil => []
  | .cons hd tl => hd :: arrToList tl

/-- The fields of a JSON object as a list, in insertion order. -/
def ofieldList : JsonObj → List (String × Json)
  | .nil => []
  | .cons k v tl => (k, v) :: ofieldList tl

/-- JS property access `fields[k]`: the value bound to the first (unique)
occurrence of the key. -/
def olookup (k : String) : JsonObj → Option Json
  | .nil => none
  | .cons k2 v tl => if k2 == k then some v else olookup k tl

/-- The keys of a JSON object in insertion order (`Object.keys`). -/
def okeys : JsonObj → List String
  | .nil => []
  | .cons k _ tl => k :: okeys tl

/-- The key/value pairs `JSON.stringify` emits for an object under an
array replacer: the replacer's keys, in replacer order, that are present
on the object. -/
def allowedFields (allow : List String) (fields : JsonObj) : List (String × Json) :=
  allow.filterMap fun k => (olookup k fields).map fun v => (k, v)

/-- JSON string quoting.  The strings appearing in closure records are
plain text without quotes, backslashes or control characters, so quoting
is wrapping in double quotes. -/
def jsonQuote (s : String) : String := "\"" ++ s ++ "\""

/-- The UTF-16 code units of a string (all characters used are in the
basic multilingual plane, one code unit per character). -/
def strCodes (s : String) : List Nat := s.toList.map Char.toNat

/-- Lexicographic comparison of code-unit sequences: how JS compares
strings, both in `<`-comparisons and in the default `Array.sort`. -/
def lexLe : List Nat → List Nat → Bool
  | [], _ => true
  | _ :: _, [] => false
  | a :: as, b :: bs => if a < b then true else if b < a then false else lexLe as bs

/-- JS `Array.prototype.sort()` on an array of strings: sort by UTF-16
code-unit order (stable; insertion sort with a non-strict total preorder
is the stable sort). -/
def sortStrings (ks : List String) : List String :=
  ks.insertionSort (fun a b => lexLe (strCodes a) (strCodes b) = true)

/-- `JSON.stringify(value, replacer)` with an array replacer `allow`,
with explicit recursion fuel.  The fuel clause is unreachable whenever
`fuel` is at least the nesting depth of the value; `jsize` always is. -/
def stringifyFuel (allow : List String) : Nat → Json → String
  | 0, _ => ""
  | _ + 1, .null => "null"
  | _ + 1, .jbool b => cond b "true" "false"
  | _ + 1, .num n => toString n
  | _ + 1, .str s => jsonQuote s
  | fuel + 1, .arr elems =>
    "[" ++ String.intercalate "," (arrToList elems |>.map (stringifyFuel allow fuel)) ++ "]"
  | fuel + 1, .obj fields =>
    "\x7b" ++ String.intercalate ","
      ((allowedFields allow fields).map fun kv =>
        jsonQuote kv.1 ++ ":" ++ stringifyFuel allow fuel kv.2) ++ "\x7d"

/-- `generateClosureHash` (hash.js, lines 8-19):
`JSON.stringify(closureData, Object.keys(closureData).sort())`, digested;
see the section comment for the digest model. -/
def generateClosureHash (closureData : Json) : String :=
  let allow := sortStrings (match closureData with
    | .obj fields => okeys fields
    | _ => [])
  stringifyFuel allow (jsize closureData) closureData

/-- `verifyClosureHash` (hash.js, lines 27-30): recompute and compare. -/
def verifyClosureHash (closureData : Json) (providedHash : String) : Bool :=
  generateClosureHash closureData == providedHash

/-- `JSON.stringify(value)` without a replacer, with fuel as above: every
field of every object is serialized, in insertion order.  This is the
full canonical serialization of a record; two records whose full
serializations differ are different values. -/
def stringifyAllFuel : Nat → Json → String
  | 0, _ => ""
  | _ + 1, .null => "null"
  | _ + 1, .jbool b => cond b "true" "false"
  | _ + 1, .num n => toString n
  | _ + 1, .str s => jsonQuote s
  | fuel + 1, .arr elems =>
    "[" ++ String.intercalate "," (arrToList elems |>.map (stringifyAllFuel fuel)) ++ "]"
  | fuel + 1, .obj fields =>
    "\x7b" ++ String.intercalate ","
      ((ofieldList fields).map fun kv =>
        jsonQuote kv.1 ++ ":" ++ stringifyAllFuel fuel kv.2) ++ "\x7d"

/-- `JSON.stringify(value)` without a replacer. -/
def stringifyAll (j : Json) : String := stringifyAllFuel (jsize j) j

/-- A closure record as `closeBolao` builds it (closure.js, lines
259-287): fields in the source's construction order, with a main 8-number
bet and one surplus bet. -/
def closureRecordA : Json :=
  .obj (Json.ofObj [
    ("bolaoId", .str "b1"),
    ("bolaoName", .str "Bolao Mega da Virada 2026"),
    ("closedAt", .str "2026-01-01T00:00:00.000Z"),
    ("closedBy", .str "admin1"),
    ("totalFunds", .num 174),
    ("quotaValue", .num 10),
    ("participantCount", .num 2),
    ("participants", .arr (Json.ofArr [
      .obj (Json.ofObj [("userId", .str "u1"), ("name", .str "Ana"),
        ("selectedNumbers", .arr (Json.ofArr
          [.num 4, .num 8, .num 15, .num 16, .num 23, .num 42]))]),
      .obj (Json.ofObj [("userId", .str "u2"), ("name", .str "Bia"),
        ("selectedNumbers", .arr (Json.ofArr
          [.num 1, .num 2, .num 3, .num 44, .num 55, .num 60]))])])),
    ("numberToUsers", .obj (Json.ofObj
      [("4", .arr (Json.ofArr [.str "Ana"])), ("1", .arr (Json.ofArr [.str "Bia"]))])),
    ("financials", .obj (Json.ofObj [("betLevel", .num 8), ("betCost", .num 168),
      ("surplusBets", .num 1), ("remainingFunds", .num 0)])),
    ("finalBets", .arr (Json.ofArr [
      .obj (Json.ofObj [("type", .str "8 numeros"),
        ("numbers", .arr (Json.ofArr
          [.num 1, .num 2, .num 3, .num 4, .num 8, .num 15, .num 16, .num 23])),
        ("cost", .num 168)]),
      .obj (Json.ofObj [("type", .str "6 numeros (surplus)"),
        ("numbers", .arr (Json.ofArr
          [.num 5, .num 6, .num 7, .num 9, .num 10, .num 11])),
        ("cost", .num 6)])]))])

/-- `closureRecordA` with one number inside the main bet of `finalBets`
changed (23 → 24): a tampered record. -/
def closureRecordATampered : Json :=
  .obj (Json.ofObj [
    ("bolaoId", .str "b1"),
    ("bolaoName", .str "Bolao Mega da Virada 2026"),
    ("closedAt", .str "2026-01-01T00:00:00.000Z"),
    ("closedBy", .str "admin1"),
    ("totalFunds", .num 174),
    ("quotaValue", .num 10),
    ("participantCount", .num 2),
    ("participants", .arr (Json.ofArr [
      .obj (Json.ofObj [("userId", .str "u1"), ("name", .str "Ana"),
        ("selectedNumbers", .arr (Json.ofArr
          [.num 4, .num 8, .num 15, .num 16, .num 23, .num 42]))]),
      .obj (Json.ofObj [("userId", .str "u2"), ("name", .str "Bia"),
        ("selectedNumbers", .arr (Json.ofArr
          [.num 1, .num 2, .num 3, .num 44, .num 55, .num 60]))])])),
    ("numberToUsers", .obj (Json.ofObj
      [("4", .arr (Json.ofArr [.str "Ana"])), ("1", .arr (Json.ofArr [.str "Bia"]))])),
    ("financials", .obj (Json.ofObj [("betLevel", .num 8), ("betCost", .num 168),
      ("surplusBets", .num 1), ("remainingFunds", .num 0)])),
    ("finalBets", .arr (Json.ofArr [
      .obj (Json.ofObj [("type", .str "8 numeros"),
        ("numbers", .arr (Json.ofArr
          [.num 1, .num 2, .num 3, .num 4, .num 8, .num 15, .num 16, .num 24])),
        ("cost", .num 168)]),
      .obj (Json.ofObj [("type", .str "6 numeros (surplus)"),
        ("numbers", .arr (Json.ofArr
          [.num 5, .num 6, .num 7, .num 9, .num 10, .num 11])),
        ("cost", .num 6)])]))])

/-- The failure oracle in which only the `final_bets` insert of step 9
fails. -/
def failAtFinalBetsInsert : CloseFailures :=
  ⟨false, false, false, false, false, false, false, true⟩

/-- An open pool with no closure state. -/
def dbOpen : ClosureDb := ⟨"open", none, false⟩

/-- The spec words for the popularity normalizer, stated independently of
the source: the maximum, over the numbers 1..60, of the per-number count
of confirmed selections.  Compared below with the source's
Math.max(...popularity.slice(1), 1) computation. -/
def specMaxCount (selections : List Nat) : ℕ :=
  (Finset.Icc 1 60).sup fun k => popCount selections k

/-! ## Helper lemmas about list folds with min and max -/

theorem le_foldl_max (l : List ℚ) : ∀ acc : ℚ, acc ≤ l.foldl max acc := by
  induction l with
  | nil => intro acc; exact le_refl acc
  | cons x xs ih => intro acc; exact le_trans (le_max_left acc x) (ih (max acc x))

theorem mem_le_foldl_max (l : List ℚ) : ∀ (acc x : ℚ), x ∈ l → x ≤ l.foldl max acc := by
  induction l with
  | nil => intro acc x hx; cases hx
  | cons y ys ih =>
    intro acc x hx
    rcases List.mem_cons.mp hx with rfl | hx
    · exact le_trans (le_max_right acc x) (le_foldl_max ys (max acc x))
    · exact ih (max acc y) x hx

theorem foldl_max_le (l : List ℚ) :
    ∀ acc b : ℚ, acc ≤ b → (∀ x ∈ l, x ≤ b) → l.foldl max acc ≤ b := by
  induction l with
  | nil => intro acc b h _; exact h
  | cons y ys ih =>
    intro acc b h hall
    exact ih (max acc y) b (max_le h (hall y (List.mem_cons_self y ys)))
      (fun x hx => hall x (List.mem_cons_of_mem y hx))

theorem foldl_max_mem (l : List ℚ) : ∀ acc : ℚ, l.foldl max acc = acc ∨ l.foldl max acc ∈ l := by
  induction l with
  | nil => intro acc; exact Or.inl rfl
  | cons y ys ih =>
    intro acc
    rcases ih (max acc y) with h | h
    · rcases max_choice acc y with hm | hm
      · exact Or.inl (by rw [List.foldl_cons, h, hm])
      · exact Or.inr (by rw [List.foldl_cons, h, hm]; exact List.mem_cons_self y ys)
    · exact Or.inr (List.mem_cons_of_mem y (by rw [List.foldl_cons]; exact h))

theorem foldl_min_le_init (l : List ℚ) : ∀ acc : ℚ, l.foldl min acc ≤ acc := by
  induction l with
  | nil => intro acc; exact le_refl acc
  | cons x xs ih => intro acc; exact le_trans (ih (min acc x)) (min_le_left acc x)

theorem foldl_min_le_mem (l : List ℚ) : ∀ (acc x : ℚ), x ∈ l → l.foldl min acc ≤ x := by
  induction l with
  | nil => intro acc x hx; cases hx
  | cons y ys ih =>
    intro acc x hx
    rcases List.mem_cons.mp hx with rfl | hx
    · exact le_trans (foldl_min_le_init ys (min acc x)) (min_le_right acc x)
    · exact ih (min acc y) x hx

theorem le_listMaxQ {l : List ℚ} {x : ℚ} (hx : x ∈ l) : x ≤ listMaxQ l := by
  cases l with
  | nil => cases hx
  | cons y ys =>
    rcases List.mem_cons.mp hx with rfl | hx
    · exact le_foldl_max ys x
    · exact mem_le_foldl_max ys y x hx

theorem listMaxQ_le {l : List ℚ} {b : ℚ} (hne : l ≠ []) (h : ∀ x ∈ l, x ≤ b) :
    listMaxQ l ≤ b := by
  cases l with
  | nil => exact absurd rfl hne
  | cons y ys =>
    exact foldl_max_le ys y b (h y (List.mem_cons_self y ys))
      (fun x hx => h x (List.mem_cons_of_mem y hx))

theorem listMaxQ_mem {l : List ℚ} (hne : l ≠ []) : listMaxQ l ∈ l := by
  cases l with
  | nil => exact absurd rfl hne
  | cons y ys =>
    rcases foldl_max_mem ys y with h | h
    · rw [listMaxQ, h]; exact List.mem_cons_self y ys
    · exact List.mem_cons_of_mem y h

theorem listMinQ_le {l : List ℚ} {x : ℚ} (hx : x ∈ l) : listMinQ l ≤ x := by
  cases l with
  | nil => cases hx
  | cons y ys =>
    rcases List.mem_cons.mp hx with rfl | hx
    · exact foldl_min_le_init ys x
    · exact foldl_min_le_mem ys y x hx

/-! ## Claim theorems -/

set_option maxRecDepth 100000 in
/-- C1 (code bug demonstration): verification of an untampered record
always succeeds, but because JSON.stringify with an array replacer
filters every object at every depth by the top-level key list, all
nested fields are dropped from the hashed string; a record with one bet
number changed inside finalBets is a different record (its full JSON
differs) yet still verifies against the original record's hash.  The
claimed tamper-evidence property is false of the code. -/
theorem hash_nested_mutation_not_detected :
    (∀ r : Json, verifyClosureHash r (generateClosureHash r) = true) ∧
    stringifyAll closureRecordA ≠ stringifyAll closureRecordATampered ∧
    verifyClosureHash closureRecordATampered (generateClosureHash closureRecordA) = true := by
  refine ⟨fun r => ?_, by decide, by decide⟩
  simp [verifyClosureHash]

/-- C2 (code bug demonstration): the pool-status write of step 8 is not
the last write of closeBolao; the final_bets insert of step 9 follows it.
When only that insert fails, the error propagates to the caller while the
pool is already persisted as closed, with no final-bet rows inserted. -/
theorem closeBolao_status_flip_not_last_write :
    (closeBolao failAtFinalBetsInsert "h" dbOpen).1 = Except.error "final_bets insert failed" ∧
    (closeBolao failAtFinalBetsInsert "h" dbOpen).2.poolStatus = "closed" ∧
    (closeBolao failAtFinalBetsInsert "h" dbOpen).2.finalBetsInserted = false := by
  refine ⟨rfl, rfl, rfl⟩

/-- C4 counterexample: with remaining weights 0 and 5 the minimum weight
is 0, the source computes offset 0 while the claimed formula
max(0, 1 - minWeight) gives 1, and the item of weight 0 gets the adjusted
weight 0, which is not strictly positive. -/
theorem offset_formula_counterexample :
    offsetFor [(⟨1, 0⟩ : WItem Nat), ⟨2, 5⟩] ≠
      max 0 (1 - listMinQ (([(⟨1, 0⟩ : WItem Nat), ⟨2, 5⟩]).map WItem.weight)) ∧
    (0 : ℚ) ∈ ([(⟨1, 0⟩ : WItem Nat), ⟨2, 5⟩]).map WItem.weight ∧
    ¬ (0 : ℚ) < 0 + offsetFor [(⟨1, 0⟩ : WItem Nat), ⟨2, 5⟩] := by
  have hmin : listMinQ (([(⟨1, 0⟩ : WItem Nat), ⟨2, 5⟩]).map WItem.weight) = 0 := by
    simp [listMinQ]
  have hoff : offsetFor [(⟨1, 0⟩ : WItem Nat), ⟨2, 5⟩] = 0 := by
    rw [offsetFor, hmin]
    norm_num
  refine ⟨?_, by simp, ?_⟩
  · rw [hoff, hmin]
    norm_num
  · rw [hoff]
    norm_num

/-- C4 amended: the offset of a draw iteration is |minWeight| + 1 when
minWeight < 0 and 0 otherwise; it agrees with the claimed
max(0, 1 - minWeight) whenever minWeight < 0; and every adjusted weight
is strictly positive whenever minWeight is nonzero (when minWeight = 0
the minimum item's adjusted weight is 0). -/
theorem offset_amended {α : Type} (remaining : List (WItem α)) :
    (offsetFor remaining =
      if listMinQ (remaining.map WItem.weight) < 0 then
        abs (listMinQ (remaining.map WItem.weight)) + 1 else 0) ∧
    (listMinQ (remaining.map WItem.weight) < 0 →
      offsetFor remaining = max 0 (1 - listMinQ (remaining.map WItem.weight))) ∧
    (listMinQ (remaining.map WItem.weight) ≠ 0 →
      ∀ w ∈ remaining.map WItem.weight, 0 < w + offsetFor remaining) := by
  refine ⟨rfl, fun hneg => ?_, fun hne w hw => ?_⟩
  · rw [offsetFor]
    simp only [if_pos hneg]
    rw [abs_of_neg hneg, max_eq_right (by linarith)]
    ring
  · have hmin : listMinQ (remaining.map WItem.weight) ≤ w := listMinQ_le hw
    rw [offsetFor]
    rcases lt_trichotomy (listMinQ (remaining.map WItem.weight)) 0 with hneg | hzero | hpos
    · rw [if_pos hneg, abs_of_neg hneg]
      linarith
    · exact absurd hzero hne
    · rw [if_neg (by linarith)]
      linarith

/-- C4 amended witness: at weights -3 and 5 the minimum is -3, the offset
is 4 = max(0, 1 - (-3)), and both adjusted weights are strictly
positive. -/
theorem offset_amended_witness :
    listMinQ (([(⟨1, -3⟩ : WItem Nat), ⟨2, 5⟩]).map WItem.weight) < 0 ∧
    offsetFor [(⟨1, -3⟩ : WItem Nat), ⟨2, 5⟩] =
      max 0 (1 - listMinQ (([(⟨1, -3⟩ : WItem Nat), ⟨2, 5⟩]).map WItem.weight)) ∧
    (0 : ℚ) < -3 + offsetFor [(⟨1, -3⟩ : WItem Nat), ⟨2, 5⟩] :=
  ⟨by decide,
   (offset_amended [(⟨1, -3⟩ : WItem Nat), ⟨2, 5⟩]).2.1 (by decide),
   (offset_amended [(⟨1, -3⟩ : WItem Nat), ⟨2, 5⟩]).2.2 (by decide) (-3) (by decide)⟩

theorem calculateAllScores_map_number (draws : List Draw) (selections : List Nat) :
    (calculateAllScores draws selections).map ScoreRow.number = range60 := by
  simp [calculateAllScores, List.map_map]
  rfl

/-- C3 amended: getScores returns exactly 60 rows whose numbers are 1..60
each exactly once, sorted ascending, whenever forceRecalculate is set or
the stored rows are empty; when the stored rows are non-empty and
forceRecalculate is not set, the source returns the stored rows as they
are (sorted by number), so an incomplete non-empty store is returned with
fewer than 60 rows (see the counterexample). -/
theorem getScores_sixty_rows (draws : List Draw) (selections : List Nat)
    (stored : List ScoreRow) (recalculate : Bool)
    (h : recalculate = true ∨ stored = []) :
    (getScores draws selections stored recalculate).map ScoreRow.number = range60 ∧
    (getScores draws selections stored recalculate).length = 60 := by
  have hmap : (getScores draws selections stored recalculate).map ScoreRow.number = range60 := by
    rcases h with h | h
    · rw [getScores, if_pos (by simp [h])]
      exact calculateAllScores_map_number draws selections
    · subst h
      cases recalculate with
      | true =>
        rw [getScores, if_pos (by simp)]
        exact calculateAllScores_map_number draws selections
      | false =>
        rw [getScores]
        simp only [Bool.false_eq_true, if_false, sortByNumber, List.insertionSort,
          List.length_nil, if_pos rfl]
        exact calculateAllScores_map_number draws selections
  refine ⟨hmap, ?_⟩
  have hlen := congrArg List.length hmap
  rw [List.length_map] at hlen
  simpa [range60] using hlen

/-- C3 witness: recalculation always yields the 60 rows 1..60 in order. -/
theorem getScores_sixty_rows_witness :
    (getScores [] [] [] true).map ScoreRow.number = range60 ∧
    (getScores [] [] [] true).length = 60 :=
  getScores_sixty_rows [] [] [] true (Or.inl rfl)

/-- C3 counterexample: with forceRecalculate false and a non-empty but
incomplete store (a single row, here for number 7), getScores returns the
stored row only, not 60 entries, refuting the claim as stated. -/
theorem getScores_incomplete_counterexample :
    (getScores [] [] [⟨7, 20, 40, 10, 50⟩] false).length ≠ 60 := by decide

/-- C5: calculateBetLevel scans the cost-descending tiers
(9,504), (8,168), (7,42), (6,6) and selects the first affordable one,
with surplus, floor-of-surplus-over-6 surplus bets and mod-6 leftover,
and fails with betLevel 0 and an error exactly below 6; in particular
resolve(6) is level 6 with no surplus bets, resolve(174) is level 8 with
one surplus bet and leftover 0, and resolve(5.99) is a failure result. -/
theorem calculateBetLevel_spec (t : ℚ) (h : 0 ≤ t) :
    (t < 6 → (calculateBetLevel t).betLevel = 0 ∧
      ((calculateBetLevel t).error).isSome = true) ∧
    (6 ≤ t →
      ∀ level : CONFIG.BetLevel,
        level = (if 504 ≤ t then (⟨9, 504⟩ : CONFIG.BetLevel)
          else if 168 ≤ t then ⟨8, 168⟩ else if 42 ≤ t then ⟨7, 42⟩ else ⟨6, 6⟩) →
        (calculateBetLevel t).betLevel = level.numbers ∧
        (calculateBetLevel t).betCost = level.cost ∧
        (calculateBetLevel t).error = none ∧
        (calculateBetLevel t).surplusFunds = t - level.cost ∧
        (calculateBetLevel t).surplusBets = jsFloor ((t - level.cost) / 6) ∧
        (calculateBetLevel t).remainingFunds =
          (t - level.cost) - 6 * jsFloor ((t - level.cost) / 6)) ∧
    (calculateBetLevel 6).betLevel = 6 ∧ (calculateBetLevel 6).surplusBets = 0 ∧
    (calculateBetLevel 174).betLevel = 8 ∧ (calculateBetLevel 174).surplusBets = 1 ∧
    (calculateBetLevel 174).remainingFunds = 0 ∧
    (calculateBetLevel (599 / 100)).betLevel = 0 ∧
    ((calculateBetLevel (599 / 100)).error).isSome = true := by
  have hfind : ∀ s : ℚ, CONFIG.BET_LEVELS.find? (fun level => decide (level.cost ≤ s)) =
      (if 504 ≤ s then some (⟨9, 504⟩ : CONFIG.BetLevel)
        else if 168 ≤ s then some ⟨8, 168⟩ else if 42 ≤ s then some ⟨7, 42⟩
        else if 6 ≤ s then some ⟨6, 6⟩ else none) := by
    intro s
    rw [CONFIG.BET_LEVELS]
    by_cases h504 : (504 : ℚ) ≤ s
    · rw [List.find?_cons_of_pos _ (by simpa using h504), if_pos h504]
    · rw [List.find?_cons_of_neg _ (by simpa using h504), if_neg h504]
      by_cases h168 : (168 : ℚ) ≤ s
      · rw [List.find?_cons_of_pos _ (by simpa using h168), if_pos h168]
      · rw [List.find?_cons_of_neg _ (by simpa using h168), if_neg h168]
        by_cases h42 : (42 : ℚ) ≤ s
        · rw [List.find?_cons_of_pos _ (by simpa using h42), if_pos h42]
        · rw [List.find?_cons_of_neg _ (by simpa using h42), if_neg h42]
          by_cases h6 : (6 : ℚ) ≤ s
          · rw [List.find?_cons_of_pos _ (by simpa using h6), if_pos h6]
          · rw [List.find?_cons_of_neg _ (by simpa using h6), if_neg h6, List.find?_nil]
  refine ⟨fun h6 => ?_, fun h6 level hlevel => ?_, ?_, ?_, ?_, ?_, ?_, ?_, ?_⟩
  · rw [calculateBetLevel, hfind t, if_neg (by linarith), if_neg (by linarith),
      if_neg (by linarith), if_neg (by linarith)]
    exact ⟨rfl, rfl⟩
  · subst hlevel
    by_cases h504 : (504 : ℚ) ≤ t
    · rw [calculateBetLevel, hfind t, if_pos h504, if_pos h504]
      exact ⟨rfl, rfl, rfl, rfl, rfl, rfl⟩
    · rw [if_neg h504]
      by_cases h168 : (168 : ℚ) ≤ t
      · rw [calculateBetLevel, hfind t, if_neg h504, if_pos h168, if_pos h168]
        exact ⟨rfl, rfl, rfl, rfl, rfl, rfl⟩
      · rw [if_neg h168]
        by_cases h42 : (42 : ℚ) ≤ t
        · rw [calculateBetLevel, hfind t, if_neg h504, if_neg h168, if_pos h42, if_pos h42]
          exact ⟨rfl, rfl, rfl, rfl, rfl, rfl⟩
        · rw [if_neg h42, calculateBetLevel, hfind t, if_neg h504, if_neg h168, if_neg h42,
            if_pos h6]
          exact ⟨rfl, rfl, rfl, rfl, rfl, rfl⟩
  · rw [calculateBetLevel, hfind 6, if_neg (by norm_num), if_neg (by norm_num),
      if_neg (by norm_num), if_pos (by norm_num)]
  · rw [calculateBetLevel, hfind 6, if_neg (by norm_num), if_neg (by norm_num),
      if_neg (by norm_num), if_pos (by norm_num)]
    show jsFloor ((6 - 6) / 6) = 0
    rw [jsFloor]
    norm_num
  · rw [calculateBetLevel, hfind 174, if_neg (by norm_num), if_pos (by norm_num)]
  · rw [calculateBetLevel, hfind 174, if_neg (by norm_num), if_pos (by norm_num)]
    show jsFloor ((174 - 168) / 6) = 1
    rw [jsFloor]
    norm_num
  · rw [calculateBetLevel, hfind 174, if_neg (by norm_num), if_pos (by norm_num)]
    show jsMod (174 - 168) 6 = 0
    rw [jsMod, jsFloor]
    norm_num
  · rw [calculateBetLevel, hfind (599 / 100), if_neg (by norm_num), if_neg (by norm_num),
      if_neg (by norm_num), if_neg (by norm_num)]
  · rw [calculateBetLevel, hfind (599 / 100), if_neg (by norm_num), if_neg (by norm_num),
      if_neg (by norm_num), if_neg (by norm_num)]
    rfl

/-- C5 witness: instantiation at totalFunds 174. -/
theorem calculateBetLevel_spec_witness :
    (calculateBetLevel 174).betLevel =
      (if (504 : ℚ) ≤ 174 then (⟨9, 504⟩ : CONFIG.BetLevel)
        else if (168 : ℚ) ≤ 174 then ⟨8, 168⟩ else if (42 : ℚ) ≤ 174 then ⟨7, 42⟩
        else ⟨6, 6⟩).numbers ∧
    (calculateBetLevel 174).error = none :=
  ⟨((calculateBetLevel_spec 174 (by norm_num)).2.1 (by norm_num) _ rfl).1,
   ((calculateBetLevel_spec 174 (by norm_num)).2.1 (by norm_num) _ rfl).2.2.1⟩

/-- C8: the anti-pattern penalty of every number 1..60 lies in [0, 20]
and equals the capped sum of the configured birthday, multiple-of-5 and
additional multiple-of-10 penalties; at 10 all three apply and the sum
hits the cap exactly: penalty 20. -/
theorem antiPatternPenalty_spec (n : Nat) (h1 : 1 ≤ n) (h2 : n ≤ 60) :
    0 ≤ calculateAntiPatternPenalty n ∧ calculateAntiPatternPenalty n ≤ 20 ∧
    calculateAntiPatternPenalty n =
      min 20 ((if 1 ≤ n ∧ n ≤ 31 then (10 : ℚ) else 0) + (if n % 5 = 0 then 5 else 0) +
        (if n % 10 = 0 then 5 else 0)) ∧
    calculateAntiPatternPenalty 10 = 20 := by
  have h10 : calculateAntiPatternPenalty 10 = 20 := by
    rw [calculateAntiPatternPenalty]
    norm_num [CONFIG.PENALTIES, CONFIG.SCORE_WEIGHTS]
  have hform : calculateAntiPatternPenalty n =
      min 20 ((if 1 ≤ n ∧ n ≤ 31 then (10 : ℚ) else 0) + (if n % 5 = 0 then 5 else 0) +
        (if n % 10 = 0 then 5 else 0)) := by
    rw [calculateAntiPatternPenalty]
    simp only [CONFIG.PENALTIES, CONFIG.SCORE_WEIGHTS]
    by_cases c1 : 1 ≤ n ∧ n ≤ 31 <;> by_cases c2 : n % 5 = 0 <;> by_cases c3 : n % 10 = 0 <;>
      simp [c1, c2, c3, min_comm] <;> norm_num
  refine ⟨?_, ?_, hform, h10⟩
  · rw [hform]
    split_ifs <;> norm_num
  · rw [hform]
    exact min_le_left 20 _

/-- C8 witness: instantiation at 10, the capped case. -/
theorem antiPatternPenalty_spec_witness :
    0 ≤ calculateAntiPatternPenalty 10 ∧ calculateAntiPatternPenalty 10 ≤ 20 ∧
    calculateAntiPatternPenalty 10 = 20 :=
  ⟨(antiPatternPenalty_spec 10 (by decide) (by decide)).1,
   (antiPatternPenalty_spec 10 (by decide) (by decide)).2.1,
   (antiPatternPenalty_spec 10 (by decide) (by decide)).2.2.2⟩

theorem isValidNumber_eq_true_iff (q : ℚ) :
    isValidNumber q = true ↔ (q.den = 1 ∧ 1 ≤ q ∧ q ≤ 60) := by
  rw [isValidNumber]
  simp [CONFIG.MEGA_SENA_RANGE, and_assoc]

theorem validateNumbers_some_eq (numbers : List ℚ) (hne : numbers ≠ []) :
    validateNumbers (some numbers) =
      ⟨(((if numbers.dedup.length ≠ numbers.length then ["Duplicate numbers are not allowed"]
          else []) ++ numbers.filterMap fun num =>
            if isValidNumber num then none
            else some ("Invalid number: " ++ toString num ++
              " (must be between 1 and 60)")).length == 0),
        (if numbers.dedup.length ≠ numbers.length then ["Duplicate numbers are not allowed"]
          else []) ++ numbers.filterMap fun num =>
            if isValidNumber num then none
            else some ("Invalid number: " ++ toString num ++
              " (must be between 1 and 60)")⟩ := by
  rw [validateNumbers, if_neg (by simpa using hne)]

/-- C10: validateNumbers accepts every non-empty duplicate-free list of
integers in [1, 60] with no bound on its length (in particular lists of 7
or more are accepted, see the witness), and rejects, with at least one
error message, non-arrays, empty arrays, lists with duplicates, and lists
with a non-integer or out-of-range entry. -/
theorem validateNumbers_spec :
    (∀ numbers : List ℚ, numbers ≠ [] → numbers.Nodup →
      (∀ q ∈ numbers, q.den = 1 ∧ 1 ≤ q ∧ q ≤ 60) →
      (validateNumbers (some numbers)).valid = true) ∧
    ((validateNumbers none).valid = false ∧ (validateNumbers none).errors ≠ []) ∧
    ((validateNumbers (some [])).valid = false ∧ (validateNumbers (some [])).errors ≠ []) ∧
    (∀ numbers : List ℚ, ¬ numbers.Nodup →
      (validateNumbers (some numbers)).valid = false ∧
      (validateNumbers (some numbers)).errors ≠ []) ∧
    (∀ numbers : List ℚ, ∀ q ∈ numbers, ¬ (q.den = 1 ∧ 1 ≤ q ∧ q ≤ 60) →
      (validateNumbers (some numbers)).valid = false ∧
      (validateNumbers (some numbers)).errors ≠ []) := by
  refine ⟨fun numbers hne hnd hall => ?_, ⟨rfl, by simp [validateNumbers]⟩,
    ⟨rfl, by simp [validateNumbers]⟩, fun numbers hnd => ?_, fun numbers q hq hbad => ?_⟩
  · rw [validateNumbers]
    rw [if_neg (by simpa using hne)]
    have hdup : ¬ numbers.dedup.length ≠ numbers.length := by
      rw [List.dedup_eq_self.mpr hnd]
      simp
    have hnum : (numbers.filterMap fun num =>
        if isValidNumber num then none
        else some ("Invalid number: " ++ toString num ++ " (must be between 1 and 60)")) =
        [] := by
      rw [List.filterMap_eq_nil_iff]
      intro q hq
      rw [if_pos ((isValidNumber_eq_true_iff q).mpr (hall q hq))]
    simp only [if_neg hdup, hnum, List.nil_append, List.length_nil]
    rfl
  · have hne : numbers ≠ [] := by
      intro hnil
      exact hnd (hnil ▸ List.nodup_nil)
    have hdup : numbers.dedup.length ≠ numbers.length := by
      intro hlen
      exact hnd (List.dedup_eq_self.mp ((numbers.dedup_sublist).eq_of_length hlen))
    rw [validateNumbers, if_neg (by simpa using hne)]
    simp only [if_pos hdup]
    constructor
    · simp
    · simp
  · have hne : numbers ≠ [] := List.ne_nil_of_mem hq
    have hmem : ("Invalid number: " ++ toString q ++ " (must be between 1 and 60)") ∈
        numbers.filterMap fun num =>
          if isValidNumber num then none
          else some ("Invalid number: " ++ toString num ++ " (must be between 1 and 60)") := by
      refine List.mem_filterMap.mpr ⟨q, hq, ?_⟩
      rw [if_neg ?_]
      intro hval
      exact hbad ((isValidNumber_eq_true_iff q).mp hval)
    rw [validateNumbers_some_eq numbers hne]
    have hnn := List.ne_nil_of_mem hmem
    constructor
    · refine beq_eq_false_iff_ne.mpr ?_
      simp only [ne_eq, List.length_eq_zero, List.append_eq_nil, not_and]
      intro _ hr
      exact hnn hr
    · intro hr
      exact hnn (List.append_eq_nil.mp hr).2

/-- C10 witness: a 7-element valid list is accepted (no length cap); a
duplicate is rejected. -/
theorem validateNumbers_spec_witness :
    (validateNumbers (some [1, 2, 3, 4, 5, 6, 7])).valid = true ∧
    (validateNumbers (some [1, 1])).valid = false :=
  ⟨validateNumbers_spec.1 [1, 2, 3, 4, 5, 6, 7] (by decide) (by decide) (by decide),
   (validateNumbers_spec.2.2.2.1 [1, 1] (by decide)).1⟩

theorem mem_range60_iff {n : Nat} : n ∈ range60 ↔ 1 ≤ n ∧ n ≤ 60 := by
  rw [range60]
  constructor
  · intro h
    rcases List.mem_map.mp h with ⟨i, hi, rfl⟩
    have := List.mem_range.mp hi
    omega
  · intro ⟨h1, h2⟩
    exact List.mem_map.mpr ⟨n - 1, List.mem_range.mpr (by omega), by omega⟩

theorem maxPop_eq (selections : List Nat) :
    listMaxQ ((range60.map fun n => (popCount selections n : ℚ)) ++ [1]) =
      ((max 1 (specMaxCount selections) : ℕ) : ℚ) := by
  have hne : (range60.map fun n => (popCount selections n : ℚ)) ++ [1] ≠ [] := by
    simp
  have hmemL : ∀ k, 1 ≤ k → k ≤ 60 →
      ((popCount selections k : ℚ)) ∈
        (range60.map fun n => (popCount selections n : ℚ)) ++ [1] := by
    intro k hk1 hk2
    exact List.mem_append_left _
      (List.mem_map.mpr ⟨k, mem_range60_iff.mpr ⟨hk1, hk2⟩, rfl⟩)
  refine le_antisymm ?_ ?_
  · refine listMaxQ_le hne ?_
    intro x hx
    rcases List.mem_append.mp hx with hx | hx
    · rcases List.mem_map.mp hx with ⟨k, hk, rfl⟩
      rcases mem_range60_iff.mp hk with ⟨hk1, hk2⟩
      have hsup : popCount selections k ≤ specMaxCount selections :=
        Finset.le_sup (Finset.mem_Icc.mpr ⟨hk1, hk2⟩)
      exact_mod_cast le_trans hsup (le_max_right 1 _)
    · have hx1 : x = 1 := by simpa using hx
      subst hx1
      exact_mod_cast le_max_left 1 (specMaxCount selections)
  · have hm := listMaxQ_mem hne
    rcases List.mem_append.mp hm with hL | h1
    · rcases List.mem_map.mp hL with ⟨k, hk, hkeq⟩
      rw [← hkeq]
      have h1le : (1 : ℚ) ≤ (popCount selections k : ℚ) := by
        rw [hkeq]
        exact le_listMaxQ (List.mem_append_right _ (by simp))
      have hsle : specMaxCount selections ≤ popCount selections k := by
        refine Finset.sup_le ?_
        intro j hj
        rcases Finset.mem_Icc.mp hj with ⟨hj1, hj2⟩
        have : ((popCount selections j : ℚ)) ≤ (popCount selections k : ℚ) := by
          rw [hkeq]
          exact le_listMaxQ (hmemL j hj1 hj2)
        exact_mod_cast this
      have : max 1 (specMaxCount selections) ≤ popCount selections k := by
        have h1n : 1 ≤ popCount selections k := by exact_mod_cast h1le
        omega
      exact_mod_cast this
    · have hx1 : listMaxQ ((range60.map fun n => (popCount selections n : ℚ)) ++ [1]) = 1 := by
        simpa using h1
      rw [hx1]
      have hall : ∀ x ∈ (range60.map fun n => (popCount selections n : ℚ)) ++ [1], x ≤ 1 := by
        intro x hx
        have := le_listMaxQ hx
        rw [hx1] at this
        exact this
      have hsup1 : specMaxCount selections ≤ 1 := by
        refine Finset.sup_le ?_
        intro j hj
        rcases Finset.mem_Icc.mp hj with ⟨hj1, hj2⟩
        have := hall _ (hmemL j hj1 hj2)
        exact_mod_cast this
      have : max 1 (specMaxCount selections) = 1 := by omega
      rw [this]
      norm_num

/-- C7: for every number 1..60 the popularity score equals
round((1 - count/maxCount) * 40) with maxCount the maximum per-number
count floored at 1; a number picked by nobody scores 40, and a most-picked
number scores 0 whenever some number is picked at least once.
Determinism: the embedding is a pure function of the confirmed selection
rows. -/
theorem popularity_spec (selections : List Nat) (n : Nat) (h1 : 1 ≤ n) (h2 : n ≤ 60) :
    calculatePopularity selections n =
      jsRound ((1 - (popCount selections n : ℚ) /
        ((max 1 (specMaxCount selections) : ℕ) : ℚ)) * 40) ∧
    (popCount selections n = 0 → calculatePopularity selections n = 40) ∧
    (1 ≤ specMaxCount selections → popCount selections n = specMaxCount selections →
      calculatePopularity selections n = 0) := by
  have hform : calculatePopularity selections n =
      jsRound ((1 - (popCount selections n : ℚ) /
        ((max 1 (specMaxCount selections) : ℕ) : ℚ)) * 40) := by
    rw [calculatePopularity, maxPop_eq selections]
    rfl
  refine ⟨hform, fun hzero => ?_, fun hpos heq => ?_⟩
  · rw [hform, hzero]
    rw [Nat.cast_zero, zero_div, jsRound]
    norm_num
  · have hM : max 1 (specMaxCount selections) = specMaxCount selections :=
      max_eq_right hpos
    have hne0 : ((specMaxCount selections : ℕ) : ℚ) ≠ 0 :=
      Nat.cast_ne_zero.mpr (by omega)
    rw [hform, heq, hM, div_self hne0, jsRound]
    norm_num

set_option maxRecDepth 40000 in
/-- C7 witness: with one confirmed pick of 7, number 5 (picked by nobody)
scores 40 and number 7 (the most picked) scores 0. -/
theorem popularity_spec_witness :
    calculatePopularity [7] 5 = 40 ∧ calculatePopularity [7] 7 = 0 :=
  ⟨(popularity_spec [7] 5 (by decide) (by decide)).2.1 (by decide),
   (popularity_spec [7] 7 (by decide) (by decide)).2.2 (by decide) (by decide)⟩

theorem scanPick_lt_length {α : Type} (offset : ℚ) :
    ∀ (random : ℚ) (l : List (WItem α)) (j : Nat),
      scanPick offset random l = some j → j < l.length := by
  intro random l
  induction l generalizing random with
  | nil => intro j h; simp [scanPick] at h
  | cons r rs ih =>
    intro j h
    rw [scanPick] at h
    split at h
    · cases h
      simp
    · rcases Option.map_eq_some'.mp h with ⟨j', hj', rfl⟩
      have := ih _ j' hj'
      simp only [List.length_cons]
      omega

theorem pickIndex_lt_length {α : Type} (random offset : ℚ) (l : List (WItem α))
    (h : l ≠ []) : pickIndex random offset l < l.length := by
  rw [pickIndex]
  cases hs : scanPick offset random l with
  | none =>
    have : 0 < l.length := List.length_pos.mpr h
    simp only [Option.getD]
    omega
  | some j =>
    simpa [Option.getD] using scanPick_lt_length offset random l j hs

theorem selectLoop_cons_eq {α : Type} (rand : Nat → ℚ) (fuel i : Nat) (x : WItem α)
    (xs : List (WItem α)) :
    ∃ idx : Nat, ∃ hidx : idx < (x :: xs).length,
      selectLoop rand (fuel + 1) i (x :: xs) =
        ((x :: xs).get ⟨idx, hidx⟩).item ::
          selectLoop rand fuel (i + 1) ((x :: xs).eraseIdx idx) := by
  refine ⟨pickIndex
      (rand i * ((x :: xs).foldl (fun s r => s + (r.weight + offsetFor (x :: xs))) 0))
      (offsetFor (x :: xs)) (x :: xs),
    pickIndex_lt_length _ _ _ (by simp), ?_⟩
  simp only [selectLoop]
  rw [List.getElem?_eq_getElem (pickIndex_lt_length _ _ _ (by simp))]
  rfl

theorem selectLoop_length {α : Type} (rand : Nat → ℚ) :
    ∀ (fuel i : Nat) (l : List (WItem α)),
      (selectLoop rand fuel i l).length = min fuel l.length := by
  intro fuel
  induction fuel with
  | zero => intro i l; simp [selectLoop]
  | succ fuel ih =>
    intro i l
    cases l with
    | nil => simp [selectLoop]
    | cons x xs =>
      rcases selectLoop_cons_eq rand fuel i x xs with ⟨idx, hidx, heq⟩
      rw [heq]
      simp only [List.length_cons]
      rw [ih (i + 1) ((x :: xs).eraseIdx idx), List.length_eraseIdx_of_lt hidx]
      simp only [List.length_cons]
      omega

theorem selectLoop_subset {α : Type} (rand : Nat → ℚ) :
    ∀ (fuel i : Nat) (l : List (WItem α)) (a : α),
      a ∈ selectLoop rand fuel i l → a ∈ l.map WItem.item := by
  intro fuel
  induction fuel with
  | zero => intro i l a h; simp [selectLoop] at h
  | succ fuel ih =>
    intro i l a h
    cases l with
    | nil => simp [selectLoop] at h
    | cons x xs =>
      rcases selectLoop_cons_eq rand fuel i x xs with ⟨idx, hidx, heq⟩
      rw [heq] at h
      rcases List.mem_cons.mp h with rfl | h
      · exact List.mem_map_of_mem _ (List.get_mem _ _ hidx)
      · have hmem := ih (i + 1) _ a h
        have hsub : List.Sublist (((x :: xs).eraseIdx idx).map WItem.item)
            ((x :: xs).map WItem.item) :=
          (List.eraseIdx_sublist (x :: xs) idx).map WItem.item
        exact hsub.subset hmem

theorem eraseIdx_map_comm {α β : Type} (f : α → β) :
    ∀ (l : List α) (i : Nat), (l.eraseIdx i).map f = (l.map f).eraseIdx i := by
  intro l
  induction l with
  | nil => intro i; rfl
  | cons x xs ih =>
    intro i
    cases i with
    | zero => rfl
    | succ n => simp [List.eraseIdx, ih n]

theorem get_not_mem_eraseIdx {α : Type} :
    ∀ (l : List α), l.Nodup → ∀ (i : Nat) (h : i < l.length),
      l.get ⟨i, h⟩ ∉ l.eraseIdx i := by
  intro l
  induction l with
  | nil => intro _ i h; simp at h
  | cons x xs ih =>
    intro hnd i h
    cases i with
    | zero =>
      simp only [List.get, List.eraseIdx]
      exact (List.nodup_cons.mp hnd).1
    | succ n =>
      simp only [List.get, List.eraseIdx]
      intro hmem
      rcases List.mem_cons.mp hmem with heq | hmem2
      · exact (List.nodup_cons.mp hnd).1 (heq ▸ List.get_mem xs _ _)
      · exact ih (List.nodup_cons.mp hnd).2 n (by simpa using h) hmem2

theorem selectLoop_nodup {α : Type} (rand : Nat → ℚ) :
    ∀ (fuel i : Nat) (l : List (WItem α)),
      (l.map WItem.item).Nodup → (selectLoop rand fuel i l).Nodup := by
  intro fuel
  induction fuel with
  | zero => intro i l _; simp [selectLoop]
  | succ fuel ih =>
    intro i l hnd
    cases l with
    | nil => simp [selectLoop]
    | cons x xs =>
      rcases selectLoop_cons_eq rand fuel i x xs with ⟨idx, hidx, heq⟩
      rw [heq]
      have hidx' : idx < ((x :: xs).map WItem.item).length := by simpa using hidx
      refine List.nodup_cons.mpr ⟨?_, ih (i + 1) _ ?_⟩
      · intro hmem
        have h2 : ((x :: xs).get ⟨idx, hidx⟩).item ∈
            (((x :: xs).eraseIdx idx).map WItem.item) :=
          selectLoop_subset rand fuel (i + 1) _ _ hmem
        rw [eraseIdx_map_comm] at h2
        have hgm : ((x :: xs).map WItem.item).get ⟨idx, hidx'⟩ =
            ((x :: xs).get ⟨idx, hidx⟩).item := List.get_map WItem.item
        rw [← hgm] at h2
        exact get_not_mem_eraseIdx _ hnd idx hidx' h2
      · rw [eraseIdx_map_comm]
        exact List.Nodup.sublist (List.eraseIdx_sublist _ idx) hnd

/-- C9: for every weighted item list with pairwise-distinct values, every
count, and every random source, the selection has no duplicate values,
its length is min(count, items.length), and when count is at least the
input size it is exactly all the items' values. -/
theorem selectWeighted_spec {α : Type} (rand : Nat → ℚ) (items : List (WItem α))
    (count : Nat) (hnd : (items.map WItem.item).Nodup) :
    (weightedRandomSelection rand items count).Nodup ∧
    (weightedRandomSelection rand items count).length = min count items.length ∧
    (items.length ≤ count → weightedRandomSelection rand items count = items.map WItem.item) := by
  rw [weightedRandomSelection]
  split_ifs with hle
  · exact ⟨hnd, by rw [List.length_map]; omega, fun _ => rfl⟩
  · refine ⟨selectLoop_nodup rand count 0 items hnd, ?_, fun h => absurd h hle⟩
    exact selectLoop_length rand count 0 items

/-- C9 witness: instantiation at three distinct items (one with negative
weight) drawn twice with the constant random source one half. -/
theorem selectWeighted_spec_witness :
    (weightedRandomSelection (fun _ => (1 : ℚ) / 2)
      [(⟨1, 2⟩ : WItem Nat), ⟨2, 3⟩, ⟨3, -1⟩] 2).Nodup ∧
    (weightedRandomSelection (fun _ => (1 : ℚ) / 2)
      [(⟨1, 2⟩ : WItem Nat), ⟨2, 3⟩, ⟨3, -1⟩] 2).length = min 2 3 :=
  ⟨(selectWeighted_spec (fun _ => (1 : ℚ) / 2)
      [(⟨1, 2⟩ : WItem Nat), ⟨2, 3⟩, ⟨3, -1⟩] 2 (by decide)).1,
   (selectWeighted_spec (fun _ => (1 : ℚ) / 2)
      [(⟨1, 2⟩ : WItem Nat), ⟨2, 3⟩, ⟨3, -1⟩] 2 (by decide)).2.1⟩

theorem rankLE_iff (a b : RankedEntry) :
    rankLE a b ↔ (b.votes < a.votes ∨ (a.votes = b.votes ∧ b.score ≤ a.score)) := by
  unfold rankLE cmpRanked
  constructor
  · intro h
    by_cases hv : b.votes ≠ a.votes
    · rw [if_pos hv] at h
      have hc : (b.votes : ℚ) ≤ (a.votes : ℚ) := by linarith
      exact Or.inl (lt_of_le_of_ne (Nat.cast_le.mp hc) hv)
    · rw [if_neg hv] at h
      exact Or.inr ⟨by omega, by linarith⟩
  · rintro (hlt | ⟨heq, hle⟩)
    · rw [if_pos (by omega : b.votes ≠ a.votes)]
      have hc : (b.votes : ℚ) < (a.votes : ℚ) := by exact_mod_cast hlt
      linarith
    · rw [if_neg (by omega)]
      linarith

theorem rankedList_map_number (selections : List Nat) (scoreRows : List (Nat × ℚ)) :
    (rankedList selections scoreRows).map RankedEntry.number = range60 := by
  simp [rankedList, List.map_map]
  rfl

theorem mem_rankedList_eq {selections : List Nat} {scoreRows : List (Nat × ℚ)}
    {e : RankedEntry} (h : e ∈ rankedList selections scoreRows) :
    e = ⟨e.number, selections.count e.number, lookupScore scoreRows e.number⟩ ∧
      1 ≤ e.number ∧ e.number ≤ 60 := by
  rcases List.mem_map.mp h with ⟨num, hnum, rfl⟩
  rcases mem_range60_iff.mp hnum with ⟨h1, h2⟩
  exact ⟨rfl, h1, h2⟩

theorem entry_mem_rankedList (selections : List Nat) (scoreRows : List (Nat × ℚ))
    {m : Nat} (h1 : 1 ≤ m) (h2 : m ≤ 60) :
    (⟨m, selections.count m, lookupScore scoreRows m⟩ : RankedEntry) ∈
      rankedList selections scoreRows :=
  List.mem_map.mpr ⟨m, mem_range60_iff.mpr ⟨h1, h2⟩, rfl⟩

theorem pairwise_take_drop {α : Type} {r : α → α → Prop} {l : List α}
    (h : l.Pairwise r) (k : Nat) : ∀ x ∈ l.take k, ∀ y ∈ l.drop k, r x y := by
  have h2 : (l.take k ++ l.drop k).Pairwise r := by
    rw [List.take_append_drop]
    exact h
  exact fun x hx y hy => (List.pairwise_append.mp h2).2.2 x hx y hy

theorem consolidate_eq (selections : List Nat) (scoreRows : List (Nat × ℚ))
    (targetCount : Nat) :
    consolidateFinalNumbers selections scoreRows targetCount =
      List.insertionSort (fun a b => a ≤ b)
        ((((rankedList selections scoreRows).insertionSort rankLE).take targetCount).map
          RankedEntry.number) := rfl

/-- C6: consolidation returns an ascending duplicate-free list of
min(targetCount, 60) numbers such that no unselected number of 1..60
strictly outranks a selected one under (votes desc, score desc); the
result is a pure function of the selections and score rows, hence
deterministic across runs, with the stable comparator sort modelled by
the stable insertion sort. -/
theorem consolidate_spec (selections : List Nat) (scoreRows : List (Nat × ℚ))
    (targetCount : Nat) :
    (consolidateFinalNumbers selections scoreRows targetCount).Sorted (· ≤ ·) ∧
    (consolidateFinalNumbers selections scoreRows targetCount).Nodup ∧
    (consolidateFinalNumbers selections scoreRows targetCount).length = min targetCount 60 ∧
    (∀ n ∈ consolidateFinalNumbers selections scoreRows targetCount,
      ∀ m : Nat, 1 ≤ m → m ≤ 60 →
        m ∉ consolidateFinalNumbers selections scoreRows targetCount →
        selections.count m < selections.count n ∨
          (selections.count n = selections.count m ∧
            lookupScore scoreRows m ≤ lookupScore scoreRows n)) := by
  have hperm : ((rankedList selections scoreRows).insertionSort rankLE).Perm
      (rankedList selections scoreRows) := List.perm_insertionSort rankLE _
  have hsorted : ((rankedList selections scoreRows).insertionSort rankLE).Sorted rankLE :=
    List.sorted_insertionSort rankLE _
  have hRn : (rankedList selections scoreRows).map RankedEntry.number = range60 :=
    rankedList_map_number selections scoreRows
  have hnodupRn : ((rankedList selections scoreRows).map RankedEntry.number).Nodup := by
    rw [hRn, range60]
    exact (List.nodup_range 60).map (fun a b h => by omega)
  have hSn : (((rankedList selections scoreRows).insertionSort rankLE).map
      RankedEntry.number).Nodup := (hperm.map RankedEntry.number).nodup_iff.mpr hnodupRn
  have hSlen : ((rankedList selections scoreRows).insertionSort rankLE).length = 60 := by
    rw [hperm.length_eq]
    have := congrArg List.length hRn
    rw [List.length_map] at this
    simpa [range60] using this
  have hmem_res : ∀ a : Nat,
      a ∈ consolidateFinalNumbers selections scoreRows targetCount ↔
      a ∈ (((rankedList selections scoreRows).insertionSort rankLE).take targetCount).map
        RankedEntry.number := by
    intro a
    rw [consolidate_eq]
    exact List.mem_insertionSort _
  refine ⟨?_, ?_, ?_, ?_⟩
  · rw [consolidate_eq]
    exact List.sorted_insertionSort _ _
  · rw [consolidate_eq]
    refine (List.perm_insertionSort _ _).nodup_iff.mpr ?_
    rw [List.map_take]
    exact List.Nodup.sublist (List.take_sublist _ _) hSn
  · rw [consolidate_eq, (List.perm_insertionSort _ _).length_eq, List.length_map,
      List.length_take, hSlen]
  · intro n hn m h1m h2m hm
    rcases List.mem_map.mp ((hmem_res n).mp hn) with ⟨En, hEnT, hEnn⟩
    have hEnS : En ∈ (rankedList selections scoreRows).insertionSort rankLE :=
      List.take_subset _ _ hEnT
    have hEnR : En ∈ rankedList selections scoreRows := hperm.mem_iff.mp hEnS
    have hEn : En = ⟨n, selections.count n, lookupScore scoreRows n⟩ := by
      have := (mem_rankedList_eq hEnR).1
      rw [hEnn] at this
      exact this
    have hEmS : (⟨m, selections.count m, lookupScore scoreRows m⟩ : RankedEntry) ∈
        (rankedList selections scoreRows).insertionSort rankLE :=
      hperm.mem_iff.mpr (entry_mem_rankedList selections scoreRows h1m h2m)
    have hEmnotT : (⟨m, selections.count m, lookupScore scoreRows m⟩ : RankedEntry) ∉
        ((rankedList selections scoreRows).insertionSort rankLE).take targetCount := by
      intro hc
      exact hm ((hmem_res m).mpr (List.mem_map.mpr ⟨_, hc, rfl⟩))
    have hEmdrop : (⟨m, selections.count m, lookupScore scoreRows m⟩ : RankedEntry) ∈
        ((rankedList selections scoreRows).insertionSort rankLE).drop targetCount := by
      have hEm2 := hEmS
      rw [← List.take_append_drop targetCount
        ((rankedList selections scoreRows).insertionSort rankLE)] at hEm2
      rcases List.mem_append.mp hEm2 with h | h
      · exact absurd h hEmnotT
      · exact h
    have hrel := pairwise_take_drop hsorted targetCount En hEnT _ hEmdrop
    rw [rankLE_iff, hEn] at hrel
    exact hrel

set_option maxRecDepth 200000 in
/-- C6 witness: with one confirmed pick of number 7 and two numbers to
take, number 7 is selected, number 60 is not, and the theorem's ranking
property instantiates to the vote comparison between them. -/
theorem consolidate_spec_witness :
    7 ∈ consolidateFinalNumbers [7] [] 2 ∧ 60 ∉ consolidateFinalNumbers [7] [] 2 ∧
    (List.count 60 [7] < List.count 7 [7] ∨
      (List.count 7 [7] = List.count 60 [7] ∧ lookupScore [] 60 ≤ lookupScore [] 7)) :=
  ⟨by decide, by decide,
   (consolidate_spec [7] [] 2).2.2.2 7 (by decide) 60 (by decide) (by decide) (by decide)⟩

end MegaSena
